import Mathlib

/-!
# A shallow embedding of the `pool` package (src/pool.go)

The Go package implements a bounded resource pool (`classic`) with:
  * a buffered channel `srcs chan Src` of idle resources (buffer size = `capacity`),
  * counters `capacity`, `maxIdle`, `len`, a `released` flag, an `RWMutex`,
  * operations `Call`, `Release`, `Len`, the reaper loop `gc`, and the internal
    helpers `incAuto`, `del`, `recover`, `isReleased`.

The embedding is sequential: every critical section of the Go code runs atomically
on a `Classic` state.  Resources are identified by natural numbers.  The buffered
channel is a FIFO list bounded by `capacity`; a channel operation that would block
forever (receive on an empty channel, send on a full channel, while the lock
excludes every possible peer) makes the embedded operation return `none`.
An `Env` supplies the caller-provided collaborators: the resource contract
`IsUsable` (per resource id), the `Factory` (indexed by how many times it has been
invoked so far), and the callback's behaviour per resource.  Side effects on
resources (`Factory` invocations, `Src.Release` destruction, `Src.Reset`,
channel enqueues, callback invocations) are recorded in an event trace.
-/

namespace PoolModel

/-- Observable side effects on resources, recorded in order of occurrence.
`destroy src` is a call of `Src.Release` on the resource, `factoryCall` an
invocation of the pool's factory, `reset src` a call of `Src.Reset`,
`enqueue src` a send of the resource into the `srcs` channel, and
`callback src` an invocation of a `Call` callback with the resource. -/
inductive Event where
  | factoryCall : Event
  | destroy : Nat → Event
  | reset : Nat → Event
  | enqueue : Nat → Event
  | callback : Nat → Event
  deriving DecidableEq, Repr

/-- Go `error` values as the pool observes them: the distinguished
`releasedError` (`errors.New("资源池已关闭")`) or any other error,
identified by its message (as produced e.g. by `fmt.Errorf("%v", p)`). -/
inductive GoErr where
  | releasedError : GoErr
  | errStr : String → GoErr
  deriving DecidableEq, Repr

/-- Behaviour of the user callback on a given resource: a normal return
carrying `error` (possibly `nil`), or a runtime panic with a payload. -/
inductive CbOutcome where
  | ret : Option GoErr → CbOutcome
  | fault : String → CbOutcome
  deriving DecidableEq, Repr

/-- The caller-provided collaborators of the pool: the `Src` usability probe,
the `Factory` (deterministic in the number of prior invocations), and the
callback passed to `Call` (deterministic in the resource it receives). -/
structure Env where
  usable : Nat → Bool
  factory : Nat → Except GoErr Nat
  cb : Nat → CbOutcome

/-- The `classic` pool state of src/pool.go: the channel contents `srcs`
(head = next to be received), the configured `capacity` and `maxIdle`, the
live count `len` (Go `int`, hence `Int`), the `released` flag, the number of
factory invocations so far, and the event trace. -/
structure Classic where
  srcs : List Nat
  capacity : Nat
  maxIdle : Nat
  len : Int
  released : Bool
  fcalls : Nat
  trace : List Event
  deriving DecidableEq, Repr

/-- Non-blocking receive from a buffered channel (`select`/`default` or a
receive that is ready): `none` when the buffer is empty. -/
def chanRecv (l : List Nat) : Option (Nat × List Nat) :=
  match l with
  | [] => none
  | x :: xs => some (x, xs)

/-- Send into a buffered channel of capacity `cap`: appends to the buffer,
`none` when the buffer is full (the send blocks). -/
def chanSend (cap : Nat) (l : List Nat) (x : Nat) : Option (List Nat) :=
  if l.length < cap then some (l ++ [x]) else none

/-- Constructor `ClassicPool(capacity, maxIdle, factory, ...)`: fresh pool with an empty
channel, `len = 0` and `released = false`.  The factory lives in `Env`; the
reap interval only schedules the reaper and has no effect on any single pass. -/
def ClassicPool (capacity maxIdle : Nat) : Classic :=
  { srcs := [], capacity := capacity, maxIdle := maxIdle, len := 0,
    released := false, fcalls := 0, trace := [] }

/-- Method `(*classic).incAuto`: under the exclusive lock, if `len >= capacity`
return `nil` with no effect; otherwise invoke the factory, propagate its
error unchanged, and on success send the new resource into `srcs` and
increment `len`.  `none` models the send blocking on a full channel. -/
def incAuto (env : Env) (s : Classic) : Option (Option GoErr × Classic) :=
  if (s.capacity : Int) ≤ s.len then some (none, s)
  else
    match env.factory s.fcalls with
    | Except.error e =>
        some (some e,
          { s with fcalls := s.fcalls + 1, trace := s.trace ++ [Event.factoryCall] })
    | Except.ok src =>
        match chanSend s.capacity s.srcs src with
        | none => none
        | some l =>
            some (none,
              { s with srcs := l, len := s.len + 1, fcalls := s.fcalls + 1,
                       trace := s.trace ++ [Event.factoryCall, Event.enqueue src] })

/-- Method `(*classic).del`: destroy the resource (`src.Release()`) and decrement
`len` under the lock. -/
def del (s : Classic) (src : Nat) : Classic :=
  { s with len := s.len - 1, trace := s.trace ++ [Event.destroy src] }

/-- Method `(*classic).recover`: under the read lock, if `released` do nothing;
otherwise `src.Reset()` and send the resource back into `srcs`.  `none`
models the send blocking on a full channel. -/
def recover (s : Classic) (src : Nat) : Option Classic :=
  if s.released then some s
  else
    match chanSend s.capacity s.srcs src with
    | none => none
    | some l =>
        some { s with srcs := l,
                      trace := s.trace ++ [Event.reset src, Event.enqueue src] }

/-- The `wait:` retry loop of `(*classic).Call`, with fuel bounding the number
of iterations (`none` = the loop has not produced an outcome within the fuel,
or an inner channel operation blocked).  One iteration: if `released`, fail
with `releasedError`; else try a non-blocking receive; a received unusable
resource is destroyed via `del` and the loop restarts; a usable one is the
result; on an empty channel, `incAuto` runs, a factory error is returned, and
otherwise (`Gosched`) the loop restarts. -/
def callLoop (env : Env) : Nat → Classic → Option (Except GoErr Nat × Classic)
  | 0, _ => none
  | fuel + 1, s =>
      if s.released then some (Except.error GoErr.releasedError, s)
      else
        match chanRecv s.srcs with
        | some (src, rest) =>
            if env.usable src then some (Except.ok src, { s with srcs := rest })
            else callLoop env fuel (del { s with srcs := rest } src)
        | none =>
            match incAuto env s with
            | none => none
            | some (some e, s1) => some (Except.error e, s1)
            | some (none, s1) => callLoop env fuel s1

/-- Running the callback on the acquired resource: the returned `error` is the
callback's own on a normal return, and `fmt.Errorf("%v", p)` when the deferred
`recover()` catches a panic `p`. -/
def runCb (env : Env) (src : Nat) (s : Classic) : Option GoErr × Classic :=
  let s1 := { s with trace := s.trace ++ [Event.callback src] }
  match env.cb src with
  | CbOutcome.ret e => (e, s1)
  | CbOutcome.fault p => (some (GoErr.errStr p), s1)

/-- Method `(*classic).Call`: acquire a resource through the retry loop (or fail),
invoke the callback on it, convert a panic into an error, and run the deferred
`self.recover(src)`.  `none` = the call never returns (loop fuel exhausted or
a channel operation blocked). -/
def Call (env : Env) (fuel : Nat) (s : Classic) : Option (Option GoErr × Classic) :=
  match callLoop env fuel s with
  | none => none
  | some (Except.error e, s1) => some (some e, s1)
  | some (Except.ok src, s1) =>
      match recover (runCb env src s1).2 src with
      | none => none
      | some s2 => some ((runCb env src s1).1, s2)

/-- A run of `n` consecutive receives from `srcs`, each destroying the received
resource (`(<-self.srcs).Release()`); `none` when a receive finds the channel
empty and blocks (no sender can run while the exclusive lock is held). -/
def drainN : Nat → Classic → Option Classic
  | 0, s => some s
  | n + 1, s =>
      match chanRecv s.srcs with
      | none => none
      | some (src, rest) =>
          drainN n { s with srcs := rest, trace := s.trace ++ [Event.destroy src] }

/-- Method `(*classic).Release`: under the exclusive lock, a no-op when already
released; otherwise set `released`, then run the drain loop
`for i := len(self.srcs); i >= 0; i--`, whose `i >= 0` bound performs
`len(srcs) + 1` receives; afterwards (if ever reached) `close(self.srcs)`
and `len = 0`. -/
def Release (s : Classic) : Option Classic :=
  if s.released then some s
  else
    match drainN (s.srcs.length + 1) { s with released := true } with
    | none => none
    | some s1 => some { s1 with len := 0 }

/-- One pass of the `(*classic).gc` loop body, under the exclusive lock:
`extra := len(self.srcs) - self.maxIdle`; when positive, subtract it from
`len` and destroy `extra` resources received from the channel. -/
def gcPass (s : Classic) : Option Classic :=
  if 0 < (s.srcs.length : Int) - (s.maxIdle : Int) then
    match drainN ((s.srcs.length : Int) - (s.maxIdle : Int)).toNat s with
    | none => none
    | some s1 =>
        some { s1 with len := s.len - ((s.srcs.length : Int) - (s.maxIdle : Int)) }
  else some s

/-- One iteration of the reaper goroutine `for !self.isReleased() { ... }`:
the released check at the top of the loop, then a pass. -/
def reapStep (s : Classic) : Option Classic :=
  if s.released then some s else gcPass s

/-- Method `(*classic).Len`: the live count under a read lock. -/
def Len (s : Classic) : Int :=
  s.len

/-- The pool operations a history is built from: a complete `Call` (with its
loop fuel), a `Release`, one reaper iteration, and the deferred park-back step
`recover` of an in-flight `Call` whose callback already finished. -/
inductive Op where
  | doCall : Nat → Op
  | doRelease : Op
  | doReap : Op
  | doPark : Nat → Op

/-- Apply one operation to the pool state; `none` = the operation blocks or
does not terminate. -/
def applyOp (env : Env) : Op → Classic → Option Classic
  | Op.doCall fuel, s => (Call env fuel s).map Prod.snd
  | Op.doRelease, s => Release s
  | Op.doReap, s => reapStep s
  | Op.doPark src, s => recover s src

/-- Run a sequence of operations, stopping with `none` as soon as one blocks. -/
def runOps (env : Env) : List Op → Classic → Option Classic
  | [], s => some s
  | op :: ops, s =>
      match applyOp env op s with
      | none => none
      | some s1 => runOps env ops s1

/-- A sample environment: every resource usable, factory always succeeds,
callback returns `nil`. -/
def env0 : Env :=
  { usable := fun _ => true, factory := fun n => Except.ok (n + 1),
    cb := fun _ => CbOutcome.ret none }

/-- A sample environment whose factory always fails. -/
def envErr : Env :=
  { usable := fun _ => true,
    factory := fun _ => Except.error (GoErr.errStr ("factory failed")),
    cb := fun _ => CbOutcome.ret none }

/-- A sample environment where resource `5` is unusable. -/
def envU : Env :=
  { usable := fun n => n != 5, factory := fun n => Except.ok (n + 1),
    cb := fun _ => CbOutcome.ret none }

/-- A sample environment whose callback always panics. -/
def envF : Env :=
  { usable := fun _ => true, factory := fun n => Except.ok (n + 1),
    cb := fun _ => CbOutcome.fault ("kaboom") }

/-- A sample pool state whose closed flag is already set. -/
def sClosed : Classic :=
  { ClassicPool 2 1 with released := true }

/-- A sample pool state with two idle resources, the first of them unusable
under `envU`. -/
def sU : Classic :=
  { ClassicPool 2 2 with srcs := [5, 7], len := 2 }




/-! ## Field-preservation helper lemmas -/

/-- The second component of `runCb` only appends the callback event. -/
theorem runCb_snd (env : Env) (src : Nat) (s : Classic) :
    (runCb env src s).2 = { s with trace := s.trace ++ [Event.callback src] } := by
  unfold runCb
  cases env.cb src <;> rfl

/-- Lemma: `incAuto` preserves `len ≤ capacity` and never changes `capacity`. -/
theorem incAuto_inv (env : Env) (s : Classic) (r : Option GoErr × Classic)
    (h : incAuto env s = some r) (hs : s.len ≤ (s.capacity : Int)) :
    r.2.len ≤ (r.2.capacity : Int) ∧ r.2.capacity = s.capacity := by
  unfold incAuto at h
  split at h
  · injection h with h; subst h; exact ⟨hs, rfl⟩
  · rename_i hlt
    split at h
    · injection h with h; subst h; exact ⟨hs, rfl⟩
    · split at h
      · exact Option.noConfusion h
      · injection h with h; subst h
        refine ⟨?_, rfl⟩
        show s.len + 1 ≤ (s.capacity : Int)
        omega

/-- Lemma: `recover` never changes `len` or `capacity`. -/
theorem recover_fields (s : Classic) (src : Nat) (s1 : Classic)
    (h : recover s src = some s1) :
    s1.len = s.len ∧ s1.capacity = s.capacity := by
  unfold recover at h
  split at h
  · injection h with h; subst h; exact ⟨rfl, rfl⟩
  · split at h
    · exact Option.noConfusion h
    · injection h with h; subst h; exact ⟨rfl, rfl⟩

/-- Lemma: `drainN` never changes `len` or `capacity`. -/
theorem drainN_fields (n : Nat) : ∀ (s s1 : Classic), drainN n s = some s1 →
    s1.len = s.len ∧ s1.capacity = s.capacity := by
  induction n with
  | zero =>
      intro s s1 h
      injection h with h; subst h; exact ⟨rfl, rfl⟩
  | succ n ih =>
      intro s s1 h
      rw [drainN] at h
      cases hl : s.srcs with
      | nil =>
          rw [hl] at h
          replace h : (none : Option Classic) = some s1 := h
          exact Option.noConfusion h
      | cons x xs =>
          rw [hl] at h
          replace h : drainN n
              { s with srcs := xs, trace := s.trace ++ [Event.destroy x] } = some s1 := h
          have h2 := ih _ _ h
          exact ⟨h2.1, h2.2⟩

/-- Draining strictly more items than the channel holds blocks. -/
theorem drainN_block (n : Nat) : ∀ (s : Classic), s.srcs.length < n →
    drainN n s = none := by
  induction n with
  | zero => intro s h; omega
  | succ n ih =>
      intro s h
      rw [drainN]
      cases hl : s.srcs with
      | nil => simp [chanRecv]
      | cons x xs =>
          simp only [chanRecv]
          apply ih
          rw [hl] at h
          show xs.length < n
          simp only [List.length_cons] at h
          omega

/-- The `Call` retry loop preserves `len ≤ capacity` and never changes
`capacity`. -/
theorem callLoop_inv (env : Env) (fuel : Nat) :
    ∀ (s : Classic) (r : Except GoErr Nat × Classic),
      callLoop env fuel s = some r → s.len ≤ (s.capacity : Int) →
      r.2.len ≤ (r.2.capacity : Int) ∧ r.2.capacity = s.capacity := by
  induction fuel with
  | zero => intro s r h hs; exact Option.noConfusion h
  | succ fuel ih =>
      intro s r h hs
      rw [callLoop] at h
      split at h
      · injection h with h; subst h; exact ⟨hs, rfl⟩
      · split at h
        · split at h
          · injection h with h; subst h; exact ⟨hs, rfl⟩
          · have h2 := ih _ _ h (by show s.len - 1 ≤ (s.capacity : Int); omega)
            exact ⟨h2.1, h2.2⟩
        · split at h
          · exact Option.noConfusion h
          · rename_i e s1 heq
            injection h with h; subst h
            exact incAuto_inv env s _ heq hs
          · rename_i s1 heq
            have h1 := incAuto_inv env s _ heq hs
            have h2 := ih _ _ h h1.1
            exact ⟨h2.1, h2.2.trans h1.2⟩

/-- A completed `Call` preserves `len ≤ capacity` and never changes
`capacity`. -/
theorem Call_inv (env : Env) (fuel : Nat) (s : Classic) (r : Option GoErr × Classic)
    (h : Call env fuel s = some r) (hs : s.len ≤ (s.capacity : Int)) :
    r.2.len ≤ (r.2.capacity : Int) ∧ r.2.capacity = s.capacity := by
  unfold Call at h
  split at h
  · exact Option.noConfusion h
  · rename_i e s1 heq
    injection h with h; subst h
    exact callLoop_inv env fuel s _ heq hs
  · rename_i src s1 heq
    split at h
    · exact Option.noConfusion h
    · rename_i s2 hrec
      injection h with h; subst h
      have h1 := callLoop_inv env fuel s _ heq hs
      have h2 := recover_fields _ _ _ hrec
      rw [runCb_snd] at h2
      constructor
      · show s2.len ≤ (s2.capacity : Int)
        rw [h2.1, h2.2]
        exact h1.1
      · show s2.capacity = s.capacity
        rw [h2.2]
        exact h1.2

/-- A completed `Release` leaves `len ≤ capacity` and never changes
`capacity`. -/
theorem Release_inv (s s1 : Classic) (h : Release s = some s1)
    (hs : s.len ≤ (s.capacity : Int)) :
    s1.len ≤ (s1.capacity : Int) ∧ s1.capacity = s.capacity := by
  unfold Release at h
  split at h
  · injection h with h; subst h; exact ⟨hs, rfl⟩
  · split at h
    · exact Option.noConfusion h
    · rename_i s2 hdrain
      injection h with h; subst h
      have h2 := drainN_fields _ _ _ hdrain
      refine ⟨?_, h2.2⟩
      show (0 : Int) ≤ (s2.capacity : Int)
      positivity

/-- A reaper pass preserves `len ≤ capacity` and never changes `capacity`. -/
theorem gcPass_inv (s s1 : Classic) (h : gcPass s = some s1)
    (hs : s.len ≤ (s.capacity : Int)) :
    s1.len ≤ (s1.capacity : Int) ∧ s1.capacity = s.capacity := by
  unfold gcPass at h
  split at h
  · rename_i hpos
    split at h
    · exact Option.noConfusion h
    · rename_i s2 hdrain
      injection h with h; subst h
      have h2 := drainN_fields _ _ _ hdrain
      refine ⟨?_, h2.2⟩
      show s.len - ((s.srcs.length : Int) - (s.maxIdle : Int)) ≤ (s2.capacity : Int)
      rw [h2.2]
      omega
  · injection h with h; subst h; exact ⟨hs, rfl⟩

/-- One reaper iteration preserves `len ≤ capacity` and `capacity`. -/
theorem reapStep_inv (s s1 : Classic) (h : reapStep s = some s1)
    (hs : s.len ≤ (s.capacity : Int)) :
    s1.len ≤ (s1.capacity : Int) ∧ s1.capacity = s.capacity := by
  unfold reapStep at h
  split at h
  · injection h with h; subst h; exact ⟨hs, rfl⟩
  · exact gcPass_inv s s1 h hs

/-- Every single pool operation preserves `len ≤ capacity` and `capacity`. -/
theorem applyOp_inv (env : Env) (op : Op) (s s1 : Classic)
    (h : applyOp env op s = some s1) (hs : s.len ≤ (s.capacity : Int)) :
    s1.len ≤ (s1.capacity : Int) ∧ s1.capacity = s.capacity := by
  cases op with
  | doCall fuel =>
      unfold applyOp at h
      rcases Option.map_eq_some'.mp h with ⟨r, hr, hr2⟩
      have := Call_inv env fuel s r hr hs
      rw [← hr2]
      exact this
  | doRelease => exact Release_inv s s1 h hs
  | doReap => exact reapStep_inv s s1 h hs
  | doPark src =>
      have h2 := recover_fields s src s1 h
      rw [h2.1, h2.2]
      exact ⟨hs, rfl⟩

/-- Every completed operation sequence preserves `len ≤ capacity` and
`capacity`. -/
theorem runOps_inv (env : Env) (ops : List Op) :
    ∀ (s s1 : Classic), runOps env ops s = some s1 →
      s.len ≤ (s.capacity : Int) →
      s1.len ≤ (s1.capacity : Int) ∧ s1.capacity = s.capacity := by
  induction ops with
  | nil =>
      intro s s1 h hs
      injection h with h; subst h; exact ⟨hs, rfl⟩
  | cons op ops ih =>
      intro s s1 h hs
      rw [runOps] at h
      split at h
      · exact Option.noConfusion h
      · rename_i s2 hstep
        have h1 := applyOp_inv env op s s2 hstep hs
        have h2 := ih s2 s1 h h1.1
        exact ⟨h2.1, h2.2.trans h1.2⟩

/-! ## Claims -/

/-- C1: for every sequence of pool operations (complete `Call`s, reaper
iterations, `Release`s, and park-back steps of in-flight calls) that runs to
completion from `ClassicPool capacity maxIdle`, the live count `len` of the
resulting state never exceeds `capacity`: `incAuto` only creates a resource
and increments `len` when `len < capacity`, and no other operation increments
`len`. -/
theorem c1_len_never_exceeds_capacity (env : Env) (capacity maxIdle : Nat)
    (ops : List Op) (s1 : Classic)
    (h : runOps env ops (ClassicPool capacity maxIdle) = some s1) :
    s1.len ≤ (capacity : Int) := by
  have h1 := runOps_inv env ops (ClassicPool capacity maxIdle) s1 h
    (by show (0 : Int) ≤ (capacity : Int); positivity)
  have h2 := h1.1
  rw [h1.2] at h2
  exact h2

theorem c1_len_never_exceeds_capacity_witness :
    (ClassicPool 2 1).len ≤ ((2 : Nat) : Int) :=
  c1_len_never_exceeds_capacity env0 2 1 [Op.doReap] (ClassicPool 2 1) (by decide)

/-- C2 (the code, as written, diverges from this claim): on any pool whose
`released` flag is still false, `Release` never completes.  Its drain loop
`for i := len(self.srcs); i >= 0; i--` performs `len(srcs) + 1` receives on a
channel holding `len(srcs)` items while the exclusive lock shuts out every
possible sender, so the final receive blocks forever; the closed flag is set
but `close(self.srcs)` and `self.len = 0` are never reached, and no second
invocation can ever observe idempotence. -/
theorem c2_Release_blocks (s : Classic) (h : s.released = false) :
    Release s = none := by
  unfold Release
  rw [h]
  simp only [Bool.false_eq_true, if_false]
  have hb : drainN (s.srcs.length + 1) { s with released := true } = none := by
    apply drainN_block
    simp
  rw [hb]

theorem c2_Release_blocks_witness : Release (ClassicPool 2 1) = none :=
  c2_Release_blocks (ClassicPool 2 1) rfl

/-- On a pool whose closed flag is set, `Call` fails fast on its first loop
iteration with `releasedError` and the state is untouched. -/
theorem Call_on_released (env : Env) (n : Nat) (s : Classic)
    (h : s.released = true) :
    Call env (n + 1) s = some (some GoErr.releasedError, s) := by
  unfold Call
  rw [callLoop, if_pos h]

/-- C3: on every pool whose closed flag is set (the state `Release` reaches
before its drain loop), every subsequent `Call` returns the pool-closed error
`releasedError` on its first loop iteration, without invoking the factory and
without invoking the callback (the state, trace and factory-invocation count
included, is returned unchanged). -/
theorem c3_call_after_release (env : Env) (fuel : Nat) (s : Classic)
    (hrel : s.released = true) (hfuel : 0 < fuel) :
    Call env fuel s = some (some GoErr.releasedError, s) := by
  obtain ⟨n, rfl⟩ : ∃ n, fuel = n + 1 := ⟨fuel - 1, by omega⟩
  exact Call_on_released env n s hrel

theorem c3_call_after_release_witness :
    Call env0 1 sClosed = some (some GoErr.releasedError, sClosed) :=
  c3_call_after_release env0 1 sClosed rfl (by omega)

/-- C9: if the pool has been released while a resource was borrowed by an
in-flight `Call`, that call's park-back step `recover` neither resets nor
re-enqueues nor destroys the borrowed resource: it returns with the pool
state (free-list, `len`, trace) exactly unchanged. -/
theorem c9_park_back_after_release (s : Classic) (src : Nat)
    (h : s.released = true) :
    recover s src = some s := by
  unfold recover
  rw [if_pos h]

theorem c9_park_back_after_release_witness : recover sClosed 7 = some sClosed :=
  c9_park_back_after_release sClosed 7 rfl

/-- Once the closed flag is set, every single operation that completes
returns the state unchanged. -/
theorem applyOp_released (env : Env) (op : Op) (s s1 : Classic)
    (h : s.released = true) (hs : applyOp env op s = some s1) : s1 = s := by
  cases op with
  | doCall fuel =>
      cases fuel with
      | zero => simp [applyOp, Call, callLoop] at hs
      | succ n =>
          simp only [applyOp] at hs
          rw [Call_on_released env n s h] at hs
          simp at hs
          exact hs.symm
  | doRelease =>
      simp only [applyOp] at hs
      unfold Release at hs
      rw [if_pos h] at hs
      injection hs with hs
      exact hs.symm
  | doReap =>
      simp only [applyOp] at hs
      unfold reapStep at hs
      rw [if_pos h] at hs
      injection hs with hs
      exact hs.symm
  | doPark src =>
      simp only [applyOp] at hs
      unfold recover at hs
      rw [if_pos h] at hs
      injection hs with hs
      exact hs.symm

/-- C8: once the closed flag has become true, every completed sequence of
subsequent operations (`Call`s, `Release`s, reaper iterations, park-back
steps of in-flight calls) returns the state literally unchanged: the flag
never becomes false again, the factory is never invoked again (`fcalls` is
unchanged), and no resource is ever re-enqueued into the free-list (`srcs`
and the trace are unchanged). -/
theorem c8_closed_is_frozen (env : Env) (ops : List Op) :
    ∀ (s s1 : Classic), s.released = true → runOps env ops s = some s1 →
      s1 = s := by
  induction ops with
  | nil =>
      intro s s1 _ hr
      injection hr with hr
      exact hr.symm
  | cons op ops ih =>
      intro s s1 h hr
      rw [runOps] at hr
      split at hr
      · exact Option.noConfusion hr
      · rename_i s2 hstep
        have h2 := applyOp_released env op s s2 h hstep
        subst h2
        exact ih s2 s1 h hr

theorem c8_closed_is_frozen_witness : sClosed = sClosed :=
  c8_closed_is_frozen env0 [Op.doReap, Op.doRelease, Op.doCall 1, Op.doPark 3]
    sClosed sClosed rfl (by decide)

/-- C10: on an unreleased pool of capacity `0` (hence an empty free-list and
a non-negative live count), `Call` never terminates, for every loop fuel:
the dequeue always fails, `incAuto` is a success-returning no-op that never
invokes the factory (since `len >= capacity` already holds), and the retry
loop spins without ever invoking the callback or returning. -/
theorem c10_zero_capacity_call_spins (env : Env) (s : Classic) (fuel : Nat)
    (hcap : s.capacity = 0) (hrel : s.released = false) (hsrcs : s.srcs = [])
    (hlen : 0 ≤ s.len) :
    Call env fuel s = none := by
  have hcond : (s.capacity : Int) ≤ s.len := by rw [hcap]; simpa using hlen
  have hinc : incAuto env s = some (none, s) := by
    unfold incAuto
    rw [if_pos hcond]
  have hloop : ∀ f, callLoop env f s = none := by
    intro f
    induction f with
    | zero => rfl
    | succ n ih =>
        rw [callLoop, hrel]
        simp only [Bool.false_eq_true, if_false, hsrcs, chanRecv, hinc]
        exact ih
  unfold Call
  rw [hloop fuel]

theorem c10_zero_capacity_call_spins_witness :
    Call env0 7 (ClassicPool 0 3) = none :=
  c10_zero_capacity_call_spins env0 (ClassicPool 0 3) 7 rfl rfl rfl (by decide)

/-- C4: the `incAuto` contract.  If `len >= capacity` it returns success
(`nil`) without invoking the factory and without mutating any state.
Otherwise it invokes the factory; on factory error it returns that error
verbatim with `len` and the free-list unchanged (no partial increment, only
the factory-invocation count and its trace entry advance); on factory
success (with room in the free-list buffer, which `len < capacity` grants in
every reachable state) it enqueues the new resource into the free-list and
increments `len` by exactly one. -/
theorem c4_incAuto_contract (env : Env) (s : Classic) :
    ((s.capacity : Int) ≤ s.len → incAuto env s = some (none, s))
    ∧ (∀ e, s.len < (s.capacity : Int) → env.factory s.fcalls = Except.error e →
        incAuto env s = some (some e,
          { s with fcalls := s.fcalls + 1,
                   trace := s.trace ++ [Event.factoryCall] }))
    ∧ (∀ src, s.len < (s.capacity : Int) → env.factory s.fcalls = Except.ok src →
        s.srcs.length < s.capacity →
        incAuto env s = some (none,
          { s with srcs := s.srcs ++ [src], len := s.len + 1,
                   fcalls := s.fcalls + 1,
                   trace := s.trace ++ [Event.factoryCall, Event.enqueue src] })) := by
  refine ⟨?_, ?_, ?_⟩
  · intro hge
    unfold incAuto
    rw [if_pos hge]
  · intro e hlt hf
    unfold incAuto
    rw [if_neg (by omega), hf]
  · intro src hlt hf hroom
    unfold incAuto
    rw [if_neg (by omega), hf]
    simp [chanSend, hroom]

theorem c4_incAuto_contract_witness :
    incAuto env0 (ClassicPool 0 0) = some (none, ClassicPool 0 0)
    ∧ incAuto envErr (ClassicPool 1 0) = some (some (GoErr.errStr ("factory failed")),
        { srcs := [], capacity := 1, maxIdle := 0, len := 0, released := false,
          fcalls := 1, trace := [Event.factoryCall] })
    ∧ incAuto env0 (ClassicPool 1 0) = some (none,
        { srcs := [1], capacity := 1, maxIdle := 0, len := 1, released := false,
          fcalls := 1, trace := [Event.factoryCall, Event.enqueue 1] }) :=
  ⟨(c4_incAuto_contract env0 (ClassicPool 0 0)).1 (by decide),
   (c4_incAuto_contract envErr (ClassicPool 1 0)).2.1 _ (by decide) rfl,
   (c4_incAuto_contract env0 (ClassicPool 1 0)).2.2 1 (by decide) rfl (by decide)⟩

/-- Draining at most the channel's length receives exactly that prefix,
destroying each received resource in order. -/
theorem drainN_spec : ∀ (n : Nat) (s : Classic), n ≤ s.srcs.length →
    drainN n s = some { s with srcs := s.srcs.drop n,
                               trace := s.trace ++ (s.srcs.take n).map Event.destroy } := by
  intro n
  induction n with
  | zero =>
      intro s _
      simp [drainN]
  | succ n ih =>
      intro s h
      rw [drainN]
      cases hl : s.srcs with
      | nil =>
          rw [hl] at h
          simp at h
      | cons x xs =>
          simp only [chanRecv]
          rw [ih _ (by rw [hl] at h; simpa using Nat.lt_succ_iff.mp h)]
          simp [List.append_assoc]

/-- C5: one reaper pass with idle count `I = |srcs|` and configured
`maxIdle = M`: if `I > M` it destroys exactly the `I - M` resources dequeued
from the head of the free-list and decreases `len` by exactly `I - M`; if
`I <= M` it destroys nothing and leaves the whole state unchanged.  In both
cases the factory-invocation count is untouched: the reaper never creates
resources. -/
theorem c5_reaper_pass (s : Classic) :
    ((s.maxIdle : Int) < (s.srcs.length : Int) →
      gcPass s = some
        { s with srcs := s.srcs.drop (s.srcs.length - s.maxIdle),
                 len := s.len - ((s.srcs.length : Int) - (s.maxIdle : Int)),
                 trace := s.trace ++
                   (s.srcs.take (s.srcs.length - s.maxIdle)).map Event.destroy })
    ∧ (s.srcs.length ≤ s.maxIdle → gcPass s = some s) := by
  constructor
  · intro hgt
    have hn : ((s.srcs.length : Int) - (s.maxIdle : Int)).toNat
        = s.srcs.length - s.maxIdle := by omega
    unfold gcPass
    rw [if_pos (by omega), hn, drainN_spec _ _ (Nat.sub_le _ _)]
  · intro hle
    unfold gcPass
    rw [if_neg (by omega)]

theorem c5_reaper_pass_witness :
    gcPass { ClassicPool 5 1 with srcs := [3, 4, 8], len := 3 } = some
      { srcs := [8], capacity := 5, maxIdle := 1, len := 1, released := false,
        fcalls := 0, trace := [Event.destroy 3, Event.destroy 4] }
    ∧ gcPass { ClassicPool 5 2 with srcs := [3], len := 1 }
      = some { ClassicPool 5 2 with srcs := [3], len := 1 } :=
  ⟨(c5_reaper_pass { ClassicPool 5 1 with srcs := [3, 4, 8], len := 3 }).1 (by decide),
   (c5_reaper_pass { ClassicPool 5 2 with srcs := [3], len := 1 }).2 (by decide)⟩

/-- Lemma: `incAuto` adds no `callback` event to the trace. -/
theorem incAuto_callback (env : Env) (s : Classic) (r : Option GoErr × Classic)
    (h : incAuto env s = some r) (x : Nat) (hx : Event.callback x ∈ r.2.trace) :
    Event.callback x ∈ s.trace := by
  unfold incAuto at h
  split at h
  · injection h with h; subst h; exact hx
  · split at h
    · injection h with h; subst h
      simpa using hx
    · split at h
      · exact Option.noConfusion h
      · injection h with h; subst h
        simpa using hx

/-- The `Call` retry loop adds no `callback` event to the trace, and a
resource it returns with `Except.ok` has passed the `IsUsable` check. -/
theorem callLoop_callback (env : Env) (fuel : Nat) :
    ∀ (s : Classic) (r : Except GoErr Nat × Classic), callLoop env fuel s = some r →
      (∀ x, Event.callback x ∈ r.2.trace → Event.callback x ∈ s.trace)
      ∧ (∀ src, r.1 = Except.ok src → env.usable src = true) := by
  induction fuel with
  | zero => intro s r h; exact Option.noConfusion h
  | succ fuel ih =>
      intro s r h
      rw [callLoop] at h
      split at h
      · injection h with h; subst h
        exact ⟨fun x hx => hx, fun src hsrc => Except.noConfusion hsrc⟩
      · split at h
        · split at h
          · rename_i husable
            injection h with h; subst h
            refine ⟨fun x hx => hx, fun src2 hsrc => ?_⟩
            injection hsrc with hsrc
            rw [← hsrc]
            exact husable
          · have h2 := ih _ _ h
            refine ⟨fun x hx => ?_, h2.2⟩
            have h3 := h2.1 x hx
            simp [del] at h3
            exact h3
        · split at h
          · exact Option.noConfusion h
          · rename_i e s1 heq
            injection h with h; subst h
            exact ⟨fun x hx => incAuto_callback env s _ heq x hx,
                   fun src hsrc => Except.noConfusion hsrc⟩
          · rename_i s1 heq
            have h2 := ih _ _ h
            exact ⟨fun x hx => incAuto_callback env s _ heq x (h2.1 x hx), h2.2⟩

/-- Every `callback` event a completed `Call` adds to the trace names a
resource whose `IsUsable` check succeeded. -/
theorem Call_callback (env : Env) (fuel : Nat) (s : Classic)
    (r : Option GoErr × Classic) (h : Call env fuel s = some r) (x : Nat)
    (hx : Event.callback x ∈ r.2.trace) :
    Event.callback x ∈ s.trace ∨ env.usable x = true := by
  unfold Call at h
  split at h
  · exact Option.noConfusion h
  · rename_i e s1 heq
    injection h with h; subst h
    exact Or.inl ((callLoop_callback env fuel s _ heq).1 x hx)
  · rename_i src s1 heq
    split at h
    · exact Option.noConfusion h
    · rename_i s2 hrec
      injection h with h; subst h
      have husable := (callLoop_callback env fuel s _ heq).2 src rfl
      have hmem : Event.callback x ∈ (runCb env src s1).2.trace := by
        unfold recover at hrec
        split at hrec
        · injection hrec with hrec; subst hrec; exact hx
        · split at hrec
          · exact Option.noConfusion hrec
          · injection hrec with hrec; subst hrec
            simpa using hx
      rw [runCb_snd] at hmem
      simp at hmem
      rcases hmem with hmem | hmem
      · exact Or.inl ((callLoop_callback env fuel s _ heq).1 x hmem)
      · subst hmem; exact Or.inr husable

/-- C6: when `Call` dequeues a resource whose `IsUsable()` is false, that
iteration destroys it exactly once (a single `destroy` event), decrements
`len` by one, surfaces no error, and simply restarts the retry loop; and no
completed `Call` ever hands an unusable resource to a callback: a resource
with `IsUsable() = false` that has never been in a `callback` event stays
out of all `callback` events. -/
theorem c6_unusable_destroyed_not_served (env : Env) (s : Classic) (src : Nat)
    (rest : List Nat) (fuel : Nat) (hrel : s.released = false)
    (hsrcs : s.srcs = src :: rest) (hu : env.usable src = false) :
    (callLoop env (fuel + 1) s
      = callLoop env fuel
          { s with srcs := rest, len := s.len - 1,
                   trace := s.trace ++ [Event.destroy src] })
    ∧ (∀ fuel2 s2 r, Call env fuel2 s2 = some r →
        Event.callback src ∉ s2.trace → Event.callback src ∉ r.2.trace) := by
  constructor
  · rw [callLoop, hsrcs]
    simp only [hrel, Bool.false_eq_true, if_false, chanRecv, hu]
    rfl
  · intro fuel2 s2 r hc hnot hmem
    rcases Call_callback env fuel2 s2 r hc src hmem with h | h
    · exact hnot h
    · rw [hu] at h
      exact Bool.noConfusion h

theorem c6_unusable_destroyed_not_served_witness :
    (callLoop envU 2 sU
      = callLoop envU 1
          { sU with srcs := [7], len := sU.len - 1,
                    trace := sU.trace ++ [Event.destroy 5] })
    ∧ Event.callback 5 ∉
        (({ srcs := [7], capacity := 2, maxIdle := 2, len := 1, released := false,
            fcalls := 0,
            trace := [Event.callback 7, Event.reset 7, Event.enqueue 7] } : Classic)).trace :=
  ⟨(c6_unusable_destroyed_not_served envU sU 5 [7] 1 rfl rfl rfl).1,
   (c6_unusable_destroyed_not_served envU sU 5 [7] 1 rfl rfl rfl).2 1
     { ClassicPool 2 2 with srcs := [7], len := 1 }
     ((none : Option GoErr),
       { srcs := [7], capacity := 2, maxIdle := 2, len := 1, released := false,
         fcalls := 0,
         trace := [Event.callback 7, Event.reset 7, Event.enqueue 7] })
     (by decide) (by decide)⟩

/-- Reduction of `Call` once the retry loop has produced a usable resource. -/
theorem Call_ok (env : Env) (fuel : Nat) (s : Classic) (src : Nat) (s1 : Classic)
    (h : callLoop env fuel s = some (Except.ok src, s1)) :
    Call env fuel s = match recover (runCb env src s1).2 src with
      | none => none
      | some s2 => some ((runCb env src s1).1, s2) := by
  unfold Call
  rw [h]

/-- C7: a `Call` that acquires a usable resource from the head of the
free-list (with room to re-park it) runs the callback and, on every callback
exit path with the pool not closed, resets and re-enqueues the resource,
leaving `len` unchanged by the whole `Call`; the returned error is the
callback's own on a normal return, and a panic is caught and returned as the
non-nil error `errStr p` instead of propagating. -/
theorem c7_callback_fault_caught (env : Env) (s : Classic) (src : Nat)
    (rest : List Nat) (fuel : Nat) (hrel : s.released = false)
    (hsrcs : s.srcs = src :: rest) (hu : env.usable src = true)
    (hroom : rest.length < s.capacity) :
    (Call env (fuel + 1) s
      = some ((match env.cb src with
               | CbOutcome.ret e => e
               | CbOutcome.fault p => some (GoErr.errStr p)),
          { s with srcs := rest ++ [src],
                   trace := s.trace ++ [Event.callback src, Event.reset src,
                                        Event.enqueue src] }))
    ∧ (∀ p, env.cb src = CbOutcome.fault p →
        Call env (fuel + 1) s
          = some (some (GoErr.errStr p),
              { s with srcs := rest ++ [src],
                       trace := s.trace ++ [Event.callback src, Event.reset src,
                                            Event.enqueue src] })) := by
  have hl : callLoop env (fuel + 1) s
      = some (Except.ok src, { s with srcs := rest }) := by
    rw [callLoop, hsrcs]
    simp only [hrel, Bool.false_eq_true, if_false, chanRecv, hu, if_true]
  have hrec : recover (runCb env src { s with srcs := rest }).2 src
      = some
          { s with srcs := rest ++ [src],
                   trace := s.trace ++ [Event.callback src, Event.reset src,
                                        Event.enqueue src] } := by
    rw [runCb_snd]
    unfold recover chanSend
    simp [hrel, hroom]
  constructor
  · rw [Call_ok env (fuel + 1) s src _ hl, hrec]
    cases hcb : env.cb src <;> simp [runCb, hcb]
  · intro p hp
    rw [Call_ok env (fuel + 1) s src _ hl, hrec]
    simp [runCb, hp]

theorem c7_callback_fault_caught_witness :
    (Call envF 1 { ClassicPool 1 1 with srcs := [3], len := 1 }
      = some (some (GoErr.errStr ("kaboom")),
          { srcs := [3], capacity := 1, maxIdle := 1, len := 1, released := false,
            fcalls := 0,
            trace := [Event.callback 3, Event.reset 3, Event.enqueue 3] }))
    ∧ (Call envF 1 { ClassicPool 1 1 with srcs := [3], len := 1 }
      = some (some (GoErr.errStr ("kaboom")),
          { srcs := [3], capacity := 1, maxIdle := 1, len := 1, released := false,
            fcalls := 0,
            trace := [Event.callback 3, Event.reset 3, Event.enqueue 3] })) :=
  ⟨(c7_callback_fault_caught envF { ClassicPool 1 1 with srcs := [3], len := 1 }
      3 [] 0 rfl rfl rfl (by decide)).1,
   (c7_callback_fault_caught envF { ClassicPool 1 1 with srcs := [3], len := 1 }
      3 [] 0 rfl rfl rfl (by decide)).2 "kaboom" rfl⟩

end PoolModel
